import Mathlib

/-!
Verification development for the Cadence admin DB-scan tool
(`tools/cli/admin_commands.go`).

The development shallowly embeds the two scan orchestrators
(`AdminDBScan`, the targeted scan, and `AdminDBScanUnsupportedWorkflow`,
the shard-range scan together with `listExecutionsByShardID` and
`checkExecution`), and models, from the specification, the three core
components that the tool consumes from elsewhere in the repository:
the invariant manager, the generic pagination engine, and the
retry-wrapped persistence accessor.

Go machine integers appear here as `Int`/`Nat`; Go `nil` pointers as
`Option`; fallible Go calls as `Except`/`Option`; the side effects on
the output file as an explicit trace of file operations.
-/

/-- An error produced by `PrintableError(msg, cause)`: a message string
paired with the underlying cause.  The exact rendering of the pair is
external to the scanned file, so the two parts are kept separate. -/
structure PrintableErr where
  msg : String
  cause : String
  deriving Repr, DecidableEq

/-! ## Targeted scan: `AdminDBScan` input parsing (admin_commands.go:749-758)

The Go loop reads execution requests with `json.Decoder.Decode`:

  for {
    var exec fetcher.ExecutionRequest
    if err := dec.Decode(&exec); err != nil {
      if err == io.EOF || err == io.ErrUnexpectedEOF { break }
    } else {
      data = append(data, exec)
    }
  }

`encoding/json.Decoder` is sticky on syntax errors: once `Decode`
returns a syntax error it stores it and every later `Decode` call
returns the same error without consuming input.  The decoder is
modelled as a list of decode outcomes in which a sticky error is never
consumed; the end of the list models the decoder positioned at EOF
(where `Decode` keeps returning `io.EOF`). -/

/-- One execution reference from the input stream
(`fetcher.ExecutionRequest`); only the workflow id matters here. -/
structure ExecutionRequest where
  workflowID : String
  deriving Repr, DecidableEq

/-- One outcome of a `Decode` call: a decoded request, an EOF-class
error (`io.EOF` or `io.ErrUnexpectedEOF`), or a sticky non-EOF error
(e.g. a JSON syntax error). -/
inductive DecodeStep where
  | ok (r : ExecutionRequest)
  | eofErr
  | stickyErr
  deriving Repr, DecidableEq

/-- Decoder state: the remaining stream of decode outcomes. -/
structure DecoderState where
  steps : List DecodeStep
  deriving Repr, DecidableEq

/-- One `Decode` call.  An exhausted stream keeps returning EOF; a
sticky error stays at the head of the stream and is returned again by
every later call, exactly as `encoding/json.Decoder` behaves after a
syntax error. -/
def decodeNext : DecoderState → DecodeStep × DecoderState
  | ⟨[]⟩ => (DecodeStep.eofErr, ⟨[]⟩)
  | ⟨DecodeStep.stickyErr :: rest⟩ => (DecodeStep.stickyErr, ⟨DecodeStep.stickyErr :: rest⟩)
  | ⟨s :: rest⟩ => (s, ⟨rest⟩)

/-- The input-parsing loop of `AdminDBScan` (admin_commands.go:749-758),
run with explicit fuel: `some requests` models the loop breaking out
(on an EOF-class error) after accumulating `requests`; `none` models
the loop still running when the fuel is exhausted.  A non-EOF decode
error neither breaks the loop nor appends a request. -/
def parseLoop : Nat → DecoderState → List ExecutionRequest → Option (List ExecutionRequest)
  | 0, _, _ => none
  | fuel + 1, d, acc =>
    match decodeNext d with
    | (DecodeStep.eofErr, _) => some acc.reverse
    | (DecodeStep.ok r, d2) => parseLoop fuel d2 (r :: acc)
    | (DecodeStep.stickyErr, d2) => parseLoop fuel d2 acc

/-! ## Targeted scan: `AdminDBScan` main loop (admin_commands.go:760-777)

For each parsed request the loop calls `checkExecution`; an error from
it makes `AdminDBScan` return `PrintableError("Error checking
execution: ", err)` immediately.  On success the record is JSON
marshalled; a marshal error is printed to stderr and that record is
skipped; otherwise the record is printed to stdout.  Each input
request is abstracted to the outcome its processing produces. -/

/-- The outcome of processing one input request: a fetch/check error
from `checkExecution` (admin_commands.go:808-812), a serialization
error from `json.Marshal`, or a successfully marshalled record. -/
inductive CheckOutcome where
  | fetchErr (m : String)
  | marshalErr (m : String)
  | ok (record : String)
  deriving Repr, DecidableEq

/-- Observable result of the `AdminDBScan` loop: records printed to
stdout in order, error lines printed to stderr in order, and the error
the function returned, if any. -/
structure TargetedScanResult where
  out : List String
  errLog : List String
  aborted : Option PrintableErr
  deriving Repr, DecidableEq

/-- The `AdminDBScan` loop over the parsed requests
(admin_commands.go:760-777): a `checkExecution` error aborts the whole
loop with `PrintableError("Error checking execution: ", err)`; a
marshal error is logged to stderr and that record skipped; a record is
printed and the loop continues. -/
def runTargetedScan : List CheckOutcome → TargetedScanResult
  | [] => ⟨[], [], none⟩
  | CheckOutcome.fetchErr m :: _ => ⟨[], [], some ⟨"Error checking execution: ", m⟩⟩
  | CheckOutcome.marshalErr m :: rest =>
    let r := runTargetedScan rest
    ⟨r.out, m :: r.errLog, r.aborted⟩
  | CheckOutcome.ok s :: rest =>
    let r := runTargetedScan rest
    ⟨s :: r.out, r.errLog, r.aborted⟩

/-! ## Shard-range scan: data model (persistence entities used at
admin_commands.go:881-888)

`ListConcreteExecutionsEntity` carries an `ExecutionInfo` pointer and a
`VersionHistories` pointer; only `DomainID`, `WorkflowID`, `RunID` and
`CloseStatus` of the info, and nil-ness of `VersionHistories`, are read
by the scan. -/

/-- Execution metadata (`persistence.ExecutionInfo` fields read by the
scan).  `closeStatus = 0` means the execution is still open. -/
structure ExecutionInfo where
  domainID : String
  workflowID : String
  runID : String
  closeStatus : Int
  deriving Repr, DecidableEq

/-- One listed execution (`persistence.ListConcreteExecutionsEntity`):
a possibly-nil `ExecutionInfo` pointer and a possibly-nil
`VersionHistories` pointer (only its nil-ness is inspected, so the
pointee is `Unit`). -/
structure ConcreteExecutionEntity where
  executionInfo : Option ExecutionInfo
  versionHistories : Option Unit
  deriving Repr, DecidableEq

/-- The corruption signature tested at admin_commands.go:883:
`executionInfo != nil && executionInfo.CloseStatus == 0 &&
execution.VersionHistories == nil`. -/
def unsupportedSignature (e : ConcreteExecutionEntity) : Bool :=
  match e.executionInfo with
  | none => false
  | some info => info.closeStatus == 0 && e.versionHistories.isNone

/-- The remediation directive written for a matching execution
(admin_commands.go:885-889), with the three `%v` verbs of the
`fmt.Sprintf` call substituted. -/
def remediationLine (info : ExecutionInfo) : String :=
  "cadence --address <host>:<port> --domain <" ++ info.domainID ++
    "> workflow reset --wid " ++ info.workflowID ++
    " --rid " ++ info.runID ++
    " --reset_type LastDecisionCompleted --reason \x27release 0.16 upgrade\x27\n"

/-- One effect on the output file: a `WriteString` or a `Sync`
(fsync). -/
inductive FileOp where
  | write (s : String) : FileOp
  | sync : FileOp
  deriving Repr, DecidableEq

/-- The file operations one listed execution contributes
(admin_commands.go:881-896): a matching execution is written as a
remediation line and the file is immediately fsynced; any other
execution contributes nothing. -/
def entityOps (e : ConcreteExecutionEntity) : List FileOp :=
  match e.executionInfo with
  | none => []
  | some info =>
    if info.closeStatus == 0 && e.versionHistories.isNone then
      [FileOp.write (remediationLine info), FileOp.sync]
    else []

/-- File operations produced by the iterator-driven loop of
`listExecutionsByShardID` over a run of listed executions, in listing
order. -/
def processEntities (es : List ConcreteExecutionEntity) : List FileOp :=
  (es.map entityOps).flatten

/-- The error `listExecutionsByShardID` returns when a page fetch
fails (admin_commands.go:879): `PrintableError(fmt.Sprintf("Failed to
scan shard ID: %v for unsupported workflow. Please retry.", shardID),
err)`. -/
def shardScanFailure (shardID : Int) (cause : String) : PrintableErr :=
  ⟨"Failed to scan shard ID: " ++ toString shardID ++
    " for unsupported workflow. Please retry.", cause⟩

/-- A shard's paged source, as the pagination engine delivers it: the
pages of `ListConcreteExecutions` responses in pagination order, each
either a page of entities or a fetch error. -/
abbrev ShardPages := List (Except String (List ConcreteExecutionEntity))

/-- `listExecutionsByShardID` (admin_commands.go:842-899) for one
shard, with the pagination-engine drive loop inlined over the page
list: pages are consumed in order; entities of fetched pages
contribute their file operations; the first page-fetch error ends the
shard scan with `shardScanFailure` (operations already written and
fsynced are kept — the file is flushed per line). -/
def scanShardPages (shardID : Int) : ShardPages → List FileOp × Option PrintableErr
  | [] => ([], none)
  | Except.error e :: _ => ([], some (shardScanFailure shardID e))
  | Except.ok es :: rest =>
    let r := scanShardPages shardID rest
    (processEntities es ++ r.1, r.2)

/-- The ascending, inclusive shard range walked by the loop
`for i := startShardID; i <= endShardID; i++`
(admin_commands.go:833). -/
def shardRange (lo hi : Int) : List Int :=
  (List.range (hi + 1 - lo).toNat).map (fun (i : Nat) => lo + (i : Int))

/-- The per-shard loop of `AdminDBScanUnsupportedWorkflow`
(admin_commands.go:833-838): shards are scanned in list order; a shard
error is returned immediately and ends the whole run, keeping the
operations already performed. -/
def scanShards (store : Int → ShardPages) : List Int → List FileOp × Option PrintableErr
  | [] => ([], none)
  | s :: rest =>
    let r := scanShardPages s (store s)
    match r.2 with
    | some e => (r.1, some e)
    | none =>
      let r2 := scanShards store rest
      (r.1 ++ r2.1, r2.2)

/-- `AdminDBScanUnsupportedWorkflow` (admin_commands.go:824-840): scan
every shard from the lower to the upper bound inclusive, in ascending
order, against the given store.  Returns the trace of file operations
and the error returned, if any. -/
def adminDBScanUnsupportedWorkflow (lo hi : Int) (store : Int → ShardPages) :
    List FileOp × Option PrintableErr :=
  scanShards store (shardRange lo hi)

/-- Every write to the output file is immediately followed by an fsync
before anything else happens. -/
def wellSynced : List FileOp → Bool
  | [] => true
  | FileOp.write _ :: FileOp.sync :: rest => wellSynced rest
  | FileOp.write _ :: _ => false
  | FileOp.sync :: rest => wellSynced rest

/-! ## Invariant manager (modelled from the spec)

`checkExecution` (admin_commands.go:820) calls
`invariant.NewInvariantManager(ivs).RunChecks(ctx, execution)`.  The
manager lives in `common/reconciliation/invariant`, which is not among
the scanned files, so it is modelled from the spec (sections 3, 4.4):
an ordered list of invariants is run, every individual check result is
collected in order with no short-circuit, and the overall status is
the worst individual status (Failed over Corrupted over Healthy). -/

/-- Modelled from the spec: the status of one check result — one of
Healthy, Corrupted, Failed (`common/reconciliation/invariant`, not
among the scanned files). -/
inductive CheckResultType where
  | healthy
  | corrupted
  | failed
  deriving Repr, DecidableEq

/-- Modelled from the spec: one invariant's result against one
execution — its status plus the human-readable description (for
Corrupted) or underlying error (for Failed). -/
structure CheckResult where
  resultType : CheckResultType
  info : String
  deriving Repr, DecidableEq

/-- Modelled from the spec: an invariant is a named, side-effect-free
check capability `check(execution snapshot) -> check result`; the
manager holds invariants only through this capability. -/
abbrev Invariant (α : Type) := α → CheckResult

/-- Modelled from the spec: the manager check result — the aggregate
status plus the ordered list of individual results for audit. -/
structure ManagerCheckResult where
  checkResultType : CheckResultType
  checkResults : List CheckResult
  deriving Repr, DecidableEq

/-- Modelled from the spec: the aggregation rule — overall status is
Failed if any individual result is Failed; else Corrupted if any is
Corrupted; else Healthy. -/
def aggregateStatus (rs : List CheckResultType) : CheckResultType :=
  if CheckResultType.failed ∈ rs then CheckResultType.failed
  else if CheckResultType.corrupted ∈ rs then CheckResultType.corrupted
  else CheckResultType.healthy

/-- Modelled from the spec: `RunChecks` runs every configured
invariant against the same snapshot, in the caller-supplied order,
collecting every individual result (no short-circuit), and aggregates
the overall status with `aggregateStatus`. -/
def runChecks {α : Type} (invs : List (Invariant α)) (execution : α) : ManagerCheckResult :=
  let rs := invs.map (fun inv => inv execution)
  ⟨aggregateStatus (rs.map CheckResult.resultType), rs⟩

/-! ## Pagination engine (modelled from the spec)

`listExecutionsByShardID` (admin_commands.go:875-877) drives
`collection.NewPagingIterator(paginationFunc)` through `HasNext`/`Next`.
The engine lives in `common/collection`, which is not among the scanned
files, so it is modelled from the spec (section 4.2): the source is
consumed page by page, one page buffered at a time; an empty returned
token terminates the sequence; `hasNext` is an idempotent peek; a fetch
error surfaces through `next` without corrupting the iterator state.
The opaque token chain is represented by the list of pages still to be
fetched: a non-empty returned token is the non-empty remainder of that
list, the empty token its end. -/

/-- Modelled from the spec: what one `next` call yields — an item, a
clean exhaustion of the source, or a page-fetch failure (the defined
"no more items" condition is `exhausted`). -/
inductive NextOutcome (α : Type) where
  | item (a : α)
  | exhausted
  | fetchFail (e : String)
  deriving Repr, DecidableEq

/-- Modelled from the spec: iterator state — the buffered remainder of
the current page, and the pages the source will still deliver (each a
page of items or a fetch error), standing for the token chain. -/
structure PagingIter (α : Type) where
  buffer : List α
  rest : List (Except String (List α))
  deriving Repr

/-- Modelled from the spec: a fresh iterator over a source: nothing
buffered, every page still to fetch. -/
def PagingIter.fromPages {α : Type} (pages : List (Except String (List α))) : PagingIter α :=
  ⟨[], pages⟩

/-- Modelled from the spec: refill — keep invoking the source while it
returns empty pages with a non-empty token; stop at the first item,
the first fetch error, or the end of the token chain. -/
def refillPages {α : Type} : List (Except String (List α)) →
    Except String (Option (α × List α × List (Except String (List α))))
  | [] => Except.ok none
  | Except.error e :: _ => Except.error e
  | Except.ok [] :: rest => refillPages rest
  | Except.ok (x :: xs) :: rest => Except.ok (some (x, xs, rest))

/-- Modelled from the spec: `next()` — serve from the buffer; refill
when it is empty; report exhaustion when the token chain has ended; a
fetch error is surfaced without corrupting the iterator state. -/
def PagingIter.next {α : Type} : PagingIter α → NextOutcome α × PagingIter α
  | ⟨x :: xs, rest⟩ => (NextOutcome.item x, ⟨xs, rest⟩)
  | ⟨[], rest⟩ =>
    match refillPages rest with
    | Except.error e => (NextOutcome.fetchFail e, ⟨[], rest⟩)
    | Except.ok none => (NextOutcome.exhausted, ⟨[], rest⟩)
    | Except.ok (some (x, xs, rest2)) => (NextOutcome.item x, ⟨xs, rest2⟩)

/-- Modelled from the spec: `hasNext()` — a pure peek: true when the
buffer still holds an item, or when fetching would yield an item or an
error (so that `next` can surface the error); false only when the
source is cleanly exhausted. -/
def PagingIter.hasNext {α : Type} (it : PagingIter α) : Bool :=
  !it.buffer.isEmpty ||
    match refillPages it.rest with
    | Except.error _ => true
    | Except.ok none => false
    | Except.ok (some _) => true

/-- The items one page holds (an error page holds none). -/
def pageItems {α : Type} : Except String (List α) → List α
  | Except.ok l => l
  | Except.error _ => []

/-- The items an iterator state has still to yield (error pages yield
nothing: the run ends at the first error). -/
def PagingIter.pending {α : Type} (it : PagingIter α) : List α :=
  it.buffer ++ (it.rest.map pageItems).flatten

/-- An iterator state whose remaining pages contain no fetch errors. -/
def PagingIter.pureSource {α : Type} (it : PagingIter α) : Prop :=
  ∀ p ∈ it.rest, ∃ l, p = Except.ok l

/-- The `HasNext`/`Next` drive loop (admin_commands.go:876-897
abstracted to item collection), with explicit fuel: collects yielded
items until `hasNext` is false or an error/exhaustion outcome. -/
def drainIter {α : Type} : Nat → PagingIter α → List α
  | 0, _ => []
  | fuel + 1, it =>
    if it.hasNext then
      match it.next with
      | (NextOutcome.item x, it2) => x :: drainIter fuel it2
      | _ => []
    else []

/-! ## Retry-wrapped persistence accessor (modelled from the spec)

`checkExecution` (admin_commands.go:796-800) wraps the stores in
`persistence.NewPersistenceRetryer(execManager, historyV2Mgr,
common.CreatePersistenceRetryPolicy())`.  The retryer lives in
`common/persistence`, which is not among the scanned files, so it is
modelled from the spec (section 4.1): a bounded attempt count,
retryable (transient) errors retried, non-retryable errors (e.g.
not-found) returned immediately, and on exhaustion the last error
returned verbatim. -/

/-- Modelled from the spec: the outcome of one underlying store call:
success, a transient (retryable) error, or a non-retryable error such
as not-found. -/
inductive CallOutcome (α : Type) where
  | ok (a : α)
  | transient (e : String)
  | nonRetryable (e : String)
  deriving Repr, DecidableEq

/-- Modelled from the spec: the retry loop.  `call i` is the behaviour
of the underlying store on attempt `i` (0-based); the second argument
is the attempts still allowed.  Returns the final result and the total
number of attempts made. -/
def retryLoop {α : Type} (call : Nat → CallOutcome α) : Nat → Nat → Except String α × Nat
  | attempt, 0 => (Except.error "", attempt)
  | attempt, remaining + 1 =>
    match call attempt with
    | CallOutcome.ok a => (Except.ok a, attempt + 1)
    | CallOutcome.nonRetryable e => (Except.error e, attempt + 1)
    | CallOutcome.transient e =>
      if remaining = 0 then (Except.error e, attempt + 1)
      else retryLoop call (attempt + 1) remaining

/-- Modelled from the spec: a retry-wrapped call with a maximum
attempt count. -/
def retryCall {α : Type} (maxAttempts : Nat) (call : Nat → CallOutcome α) :
    Except String α × Nat :=
  retryLoop call 0 maxAttempts

/-! ## Theorems -/

/-! ### C1: error handling in the targeted scan -/

/-- The records the loop prints when it runs to completion: one per
successfully marshalled outcome, in input order. -/
def okRecords (outcomes : List CheckOutcome) : List String :=
  outcomes.filterMap (fun o =>
    match o with
    | CheckOutcome.ok s => some s
    | _ => none)

/-- The stderr lines the loop logs: one per marshal error, in input
order. -/
def marshalErrors (outcomes : List CheckOutcome) : List String :=
  outcomes.filterMap (fun o =>
    match o with
    | CheckOutcome.marshalErr m => some m
    | _ => none)

/-- C1 (counterexample): on the two-execution batch where checking the
first execution hits a fetch error, `AdminDBScan` returns
`PrintableError("Error checking execution: ", err)` at once: the
second execution is never scanned and no record is printed — the fetch
error is not skipped and the batch does not continue. -/
theorem runTargetedScan_fetch_error_aborts_cex :
    runTargetedScan [CheckOutcome.fetchErr "boom", CheckOutcome.ok "rec"] =
      ⟨[], [], some ⟨"Error checking execution: ", "boom"⟩⟩ ∧
    (runTargetedScan [CheckOutcome.fetchErr "boom", CheckOutcome.ok "rec"]).aborted ≠ none := by
  refine ⟨rfl, ?_⟩
  decide

/-- C1 (amended): a `checkExecution` (fetch) error for one execution
aborts the whole batch immediately, returning
`PrintableError("Error checking execution: ", err)` with nothing
printed; only serialization (marshal) errors are isolated — on a batch
with no fetch errors the loop runs to completion, printing every
marshalled record in input order and logging every marshal error to
stderr, and returns no error. -/
theorem runTargetedScan_error_handling :
    (∀ (m : String) (rest : List CheckOutcome),
        runTargetedScan (CheckOutcome.fetchErr m :: rest) =
          ⟨[], [], some ⟨"Error checking execution: ", m⟩⟩) ∧
    (∀ outcomes : List CheckOutcome,
        (∀ m, CheckOutcome.fetchErr m ∉ outcomes) →
        runTargetedScan outcomes =
          ⟨okRecords outcomes, marshalErrors outcomes, none⟩) := by
  refine ⟨fun m rest => rfl, ?_⟩
  intro outcomes h
  induction outcomes with
  | nil => rfl
  | cons o rest ih =>
    have hrest : ∀ m, CheckOutcome.fetchErr m ∉ rest := by
      intro m hm
      exact h m (List.mem_cons_of_mem _ hm)
    cases o with
    | fetchErr m => exact (h m (List.mem_cons_self _ _)).elim
    | marshalErr m =>
      simp only [runTargetedScan, ih hrest, okRecords, marshalErrors, List.filterMap_cons]
    | ok s =>
      simp only [runTargetedScan, ih hrest, okRecords, marshalErrors, List.filterMap_cons]

/-- C1 (witness for the amended theorem): a concrete batch with a
marshal error but no fetch error runs to completion with the marshal
error logged and the two good records printed. -/
theorem runTargetedScan_error_handling_witness :
    runTargetedScan
        [CheckOutcome.ok "r1", CheckOutcome.marshalErr "bad json", CheckOutcome.ok "r2"] =
      ⟨["r1", "r2"], ["bad json"], none⟩ :=
  runTargetedScan_error_handling.2
    [CheckOutcome.ok "r1", CheckOutcome.marshalErr "bad json", CheckOutcome.ok "r2"]
    (by intro m hm; simp [List.mem_cons] at hm)

/-! ### C2: input parsing on malformed JSON -/

/-- The decoder for the concrete input
`{"workflowID":"A"}\n{bad\n{"workflowID":"B"}\n`: `Decode` yields the
request for A, then hits the JSON syntax error of the second line,
which `encoding/json.Decoder` stores and returns on every later call,
so the request for B is never reached. -/
def malformedInputDecoder : DecoderState :=
  ⟨[DecodeStep.ok ⟨"A"⟩, DecodeStep.stickyErr, DecodeStep.ok ⟨"B"⟩]⟩

/-- Once the decoder sits on a sticky non-EOF error, the parsing loop
of `AdminDBScan` neither breaks nor consumes input: it never
terminates, whatever fuel it is given. -/
theorem parseLoop_stuck_on_sticky_error (fuel : Nat) :
    ∀ (rest : List DecodeStep) (acc : List ExecutionRequest),
      parseLoop fuel ⟨DecodeStep.stickyErr :: rest⟩ acc = none := by
  induction fuel with
  | zero => intro rest acc; rfl
  | succ n ih => intro rest acc; exact ih rest acc

/-- C2 (code bug): on the input
`{"workflowID":"A"}\n{bad\n{"workflowID":"B"}\n` the input-parsing
phase of `AdminDBScan` does not terminate for any amount of fuel: the
non-EOF syntax error of the malformed line is neither a break nor a
skip, and the sticky decoder returns it forever, so the parse never
yields [A] or [A, B]. -/
theorem parseLoop_malformed_input_diverges (fuel : Nat) :
    parseLoop fuel malformedInputDecoder [] = none := by
  cases fuel with
  | zero => rfl
  | succ n =>
    show parseLoop n ⟨DecodeStep.stickyErr :: [DecodeStep.ok ⟨"B"⟩]⟩ [⟨"A"⟩] = none
    exact parseLoop_stuck_on_sticky_error n _ _

/-! ### C9: invalid shard range -/

/-- C9 (counterexample): with lower bound 2 strictly greater than
upper bound 1, `AdminDBScanUnsupportedWorkflow` visits no shard and
returns success (no error), instead of aborting. -/
theorem adminDBScanUnsupportedWorkflow_invalid_range_cex :
    adminDBScanUnsupportedWorkflow 2 1 (fun _ => []) = ([], none) ∧ (1 : Int) < 2 := by
  refine ⟨?_, by norm_num⟩
  rfl

/-- C9 (amended): when the lower shard bound is strictly greater than
the upper shard bound, the shard-range scan loop body never runs:
`AdminDBScanUnsupportedWorkflow` performs no file operation and
returns success rather than aborting with an error. -/
theorem adminDBScanUnsupportedWorkflow_empty_range
    (lo hi : Int) (store : Int → ShardPages) (h : hi < lo) :
    adminDBScanUnsupportedWorkflow lo hi store = ([], none) := by
  unfold adminDBScanUnsupportedWorkflow shardRange
  have h0 : (hi + 1 - lo).toNat = 0 := by omega
  rw [h0]
  rfl

/-- C9 (witness for the amended theorem): the inverted range [5, 3]
yields an empty successful run. -/
theorem adminDBScanUnsupportedWorkflow_empty_range_witness :
    adminDBScanUnsupportedWorkflow 5 3 (fun _ => [Except.error "unused"]) = ([], none) :=
  adminDBScanUnsupportedWorkflow_empty_range 5 3 (fun _ => [Except.error "unused"]) (by norm_num)

/-! ### C3: the manager runs every invariant -/

/-- C3: `runChecks` produces exactly one individual check result per
configured invariant, in the caller-supplied order — the result list
is the pointwise application of the invariants to the snapshot, so
earlier Corrupted or Failed results cannot suppress later checks (no
short-circuit). -/
theorem runChecks_runs_every_invariant :
    ∀ (α : Type) (invs : List (Invariant α)) (execution : α),
      (runChecks invs execution).checkResults = invs.map (fun inv => inv execution) ∧
      (runChecks invs execution).checkResults.length = invs.length := by
  intro α invs execution
  refine ⟨rfl, ?_⟩
  simp [runChecks]

/-! ### C4: aggregation law and order independence -/

/-- Aggregation only looks at which statuses occur, so it is invariant
under permutation of the individual results. -/
theorem aggregateStatus_perm {l l2 : List CheckResultType} (h : l.Perm l2) :
    aggregateStatus l = aggregateStatus l2 := by
  unfold aggregateStatus
  simp only [h.mem_iff]

/-- An always-corrupted demonstration invariant. -/
def demoCorrupted : Invariant Unit := fun _ => ⟨CheckResultType.corrupted, "corruption found"⟩

/-- An always-healthy demonstration invariant. -/
def demoHealthy : Invariant Unit := fun _ => ⟨CheckResultType.healthy, ""⟩

/-- C4: the aggregated overall status is Failed if any individual
result is Failed, else Corrupted if any individual result is
Corrupted, else Healthy; and permuting the invariant list permutes
only the detail list, leaving the overall status unchanged. -/
theorem runChecks_aggregation_law :
    (∀ rs : List CheckResultType,
        (CheckResultType.failed ∈ rs → aggregateStatus rs = CheckResultType.failed) ∧
        (CheckResultType.failed ∉ rs → CheckResultType.corrupted ∈ rs →
          aggregateStatus rs = CheckResultType.corrupted) ∧
        (CheckResultType.failed ∉ rs → CheckResultType.corrupted ∉ rs →
          aggregateStatus rs = CheckResultType.healthy)) ∧
    (∀ (α : Type) (invs invs2 : List (Invariant α)) (execution : α),
        invs.Perm invs2 →
        (runChecks invs execution).checkResultType =
          (runChecks invs2 execution).checkResultType ∧
        (runChecks invs execution).checkResults.Perm
          (runChecks invs2 execution).checkResults) := by
  constructor
  · intro rs
    refine ⟨fun hf => ?_, fun hnf hc => ?_, fun hnf hnc => ?_⟩
    · simp [aggregateStatus, hf]
    · simp [aggregateStatus, hnf, hc]
    · simp [aggregateStatus, hnf, hnc]
  · intro α invs invs2 execution h
    have hmap : (invs.map (fun inv => inv execution)).Perm
        (invs2.map (fun inv => inv execution)) := h.map _
    exact ⟨aggregateStatus_perm (hmap.map CheckResult.resultType), hmap⟩

/-- C4 (witness): with no Failed and one Corrupted the aggregate is
Corrupted, and swapping a corrupted and a healthy invariant leaves the
overall status unchanged. -/
theorem runChecks_aggregation_law_witness :
    aggregateStatus [CheckResultType.corrupted, CheckResultType.healthy] =
      CheckResultType.corrupted ∧
    (runChecks [demoCorrupted, demoHealthy] ()).checkResultType =
      (runChecks [demoHealthy, demoCorrupted] ()).checkResultType :=
  ⟨(runChecks_aggregation_law.1 [CheckResultType.corrupted, CheckResultType.healthy]).2.1
      (by decide) (by decide),
   (runChecks_aggregation_law.2 Unit [demoCorrupted, demoHealthy] [demoHealthy, demoCorrupted] ()
      (List.Perm.swap demoHealthy demoCorrupted [])).1⟩

/-! ### C5: remediation lines of the shard-range scan -/

/-- The strings written to the output file by a trace of file
operations, in order. -/
def writesOf (ops : List FileOp) : List String :=
  ops.filterMap (fun op =>
    match op with
    | FileOp.write s => some s
    | FileOp.sync => none)

/-- The remediation line an entity would produce (the empty string for
an entity with no execution metadata, which can never match the
signature). -/
def entityLine (e : ConcreteExecutionEntity) : String :=
  match e.executionInfo with
  | some info => remediationLine info
  | none => ""

/-- The per-entity file operations, phrased through the corruption
signature. -/
theorem entityOps_eq (e : ConcreteExecutionEntity) :
    entityOps e =
      if unsupportedSignature e then [FileOp.write (entityLine e), FileOp.sync] else [] := by
  rcases e with ⟨info, vh⟩
  cases info with
  | none => rfl
  | some i =>
    simp only [entityOps, unsupportedSignature, entityLine]

/-- Processing distributes over concatenation of entity runs. -/
theorem processEntities_append (a b : List ConcreteExecutionEntity) :
    processEntities (a ++ b) = processEntities a ++ processEntities b := by
  simp [processEntities]

/-- Written strings distribute over concatenation of traces. -/
theorem writesOf_append (a b : List FileOp) :
    writesOf (a ++ b) = writesOf a ++ writesOf b := by
  simp [writesOf]

/-- Processing a run is processing its head entity and then the
rest. -/
theorem processEntities_cons (e : ConcreteExecutionEntity) (rest : List ConcreteExecutionEntity) :
    processEntities (e :: rest) = entityOps e ++ processEntities rest := by
  simp [processEntities]

/-- C5: an execution contributes a remediation line to the shard-range
scan if and only if it matches the signature — execution metadata
present with close status 0 (still open) and a nil version-history
pointer; the lines written over a listed run are exactly the
remediation lines of its matching executions, and each line carries
that execution's domain id, workflow id and run id. -/
theorem shardScan_remediation_line_iff :
    ∀ es : List ConcreteExecutionEntity,
      writesOf (processEntities es) = (es.filter unsupportedSignature).map entityLine ∧
      (∀ e : ConcreteExecutionEntity,
          unsupportedSignature e = true ↔
            ∃ info, e.executionInfo = some info ∧ info.closeStatus = 0 ∧
              e.versionHistories = none) ∧
      (∀ info : ExecutionInfo, ∃ a b c d : String,
          remediationLine info =
            a ++ info.domainID ++ b ++ info.workflowID ++ c ++ info.runID ++ d) := by
  intro es
  refine ⟨?_, ?_, ?_⟩
  · induction es with
    | nil => rfl
    | cons e rest ih =>
      rw [processEntities_cons, writesOf_append, entityOps_eq e]
      cases h : unsupportedSignature e with
      | false => simpa [h, List.filter_cons, writesOf] using ih
      | true => simpa [h, List.filter_cons, writesOf] using ih
  · intro e
    rcases e with ⟨info, vh⟩
    cases info <;> cases vh <;> simp [unsupportedSignature]
  · intro info
    exact ⟨"cadence --address <host>:<port> --domain <",
      "> workflow reset --wid ", " --rid ",
      " --reset_type LastDecisionCompleted --reason \x27release 0.16 upgrade\x27\n", rfl⟩

/-- A matching demonstration entity: open (close status 0), no
version-history pointer. -/
def demoOpenNoHistory : ConcreteExecutionEntity := ⟨some ⟨"dom", "wid", "rid", 0⟩, none⟩

/-- A non-matching demonstration entity: already closed. -/
def demoClosed : ConcreteExecutionEntity := ⟨some ⟨"dom2", "wid2", "rid2", 1⟩, none⟩

/-- C5 (witness): over a run with one matching and one non-matching
execution, exactly the matching one's remediation line is written. -/
theorem shardScan_remediation_line_iff_witness :
    writesOf (processEntities [demoOpenNoHistory, demoClosed]) =
      [remediationLine ⟨"dom", "wid", "rid", 0⟩] :=
  ((shardScan_remediation_line_iff [demoOpenNoHistory, demoClosed]).1).trans (by rfl)

/-! ### C10: executions with nil metadata are silently passed over -/

/-- C10: a listed execution whose `ExecutionInfo` is nil contributes
no file operation (in particular no remediation line, even when its
version-history pointer is also nil) and no error — removing it from a
listed run leaves the produced operations unchanged, so the scan of
the remaining executions continues as if it were not there. -/
theorem shardScan_nil_executionInfo_skipped
    (e : ConcreteExecutionEntity) (h : e.executionInfo = none) :
    entityOps e = [] ∧
    ∀ pre post : List ConcreteExecutionEntity,
      processEntities (pre ++ e :: post) = processEntities (pre ++ post) := by
  have hops : entityOps e = [] := by
    unfold entityOps
    rw [h]
  refine ⟨hops, ?_⟩
  intro pre post
  have h1 : pre ++ e :: post = pre ++ [e] ++ post := by simp
  rw [h1, processEntities_append, processEntities_append, processEntities_append]
  have h2 : processEntities [e] = [] := by
    simp [processEntities, hops]
  rw [h2]
  simp

/-- C10 (witness): a nil-metadata entity with a nil version-history
pointer sitting between two others changes nothing. -/
theorem shardScan_nil_executionInfo_skipped_witness :
    processEntities [demoOpenNoHistory, ⟨none, none⟩, demoClosed] =
      processEntities [demoOpenNoHistory, demoClosed] :=
  (shardScan_nil_executionInfo_skipped ⟨none, none⟩ rfl).2 [demoOpenNoHistory] [demoClosed]

/-! ### C6: shard order, within-shard order, per-line fsync, shard-tagged errors -/

/-- The file operations a shard's pages produce when no fetch fails:
pages in pagination order, entities within a page in listing order. -/
def shardOps (pages : ShardPages) : List FileOp :=
  (pages.map (fun p => processEntities (pageItems p))).flatten

/-- A shard scan over error-free pages succeeds and produces exactly
the page-ordered operations. -/
theorem scanShardPages_ok (s : Int) :
    ∀ pages : ShardPages, (∀ p ∈ pages, ∃ es, p = Except.ok es) →
      scanShardPages s pages = (shardOps pages, none) := by
  intro pages
  induction pages with
  | nil => intro _; rfl
  | cons p rest ih =>
    intro h
    obtain ⟨es, hp⟩ := h p (List.mem_cons_self _ _)
    subst hp
    have hrest := ih (fun q hq => h q (List.mem_cons_of_mem _ hq))
    simp [scanShardPages, hrest, shardOps, pageItems]

/-- Concatenating two well-synced traces is well-synced. -/
theorem wellSynced_append : ∀ a b : List FileOp,
    wellSynced a = true → wellSynced b = true → wellSynced (a ++ b) = true
  | [], _, _, hb => hb
  | FileOp.write s :: FileOp.sync :: rest, b, ha, hb => by
    have ha2 : wellSynced rest = true := ha
    show wellSynced (FileOp.write s :: FileOp.sync :: (rest ++ b)) = true
    show wellSynced (rest ++ b) = true
    exact wellSynced_append rest b ha2 hb
  | FileOp.write s :: FileOp.write t :: rest, _, ha, _ => by cases ha
  | [FileOp.write s], _, ha, _ => by cases ha
  | FileOp.sync :: rest, b, ha, hb => by
    have ha2 : wellSynced rest = true := ha
    show wellSynced (rest ++ b) = true
    exact wellSynced_append rest b ha2 hb

/-- The trace of a listed run is well-synced: each remediation line is
immediately followed by its fsync. -/
theorem wellSynced_processEntities : ∀ es : List ConcreteExecutionEntity,
    wellSynced (processEntities es) = true := by
  intro es
  induction es with
  | nil => rfl
  | cons e rest ih =>
    rw [processEntities_cons, entityOps_eq e]
    cases unsupportedSignature e
    · simpa using ih
    · simpa [wellSynced] using ih

/-- The trace of a shard scan is well-synced even when a page fetch
fails mid-shard. -/
theorem wellSynced_scanShardPages (s : Int) :
    ∀ pages : ShardPages, wellSynced (scanShardPages s pages).1 = true := by
  intro pages
  induction pages with
  | nil => rfl
  | cons p rest ih =>
    cases p with
    | error e => rfl
    | ok es =>
      simp only [scanShardPages]
      exact wellSynced_append _ _ (wellSynced_processEntities es) ih

/-- The trace of the whole range scan is well-synced. -/
theorem wellSynced_scanShards (store : Int → ShardPages) :
    ∀ shards : List Int, wellSynced (scanShards store shards).1 = true := by
  intro shards
  induction shards with
  | nil => rfl
  | cons s rest ih =>
    simp only [scanShards]
    cases h : (scanShardPages s (store s)).2 with
    | some e => exact wellSynced_scanShardPages s (store s)
    | none => exact wellSynced_append _ _ (wellSynced_scanShardPages s (store s)) ih

/-- A shard-scan error is always the `shardScanFailure` of that
shard. -/
theorem scanShardPages_err (s : Int) :
    ∀ (pages : ShardPages) (e : PrintableErr),
      (scanShardPages s pages).2 = some e → ∃ cause, e = shardScanFailure s cause := by
  intro pages
  induction pages with
  | nil => intro e h; cases h
  | cons p rest ih =>
    intro e h
    cases p with
    | error c =>
      refine ⟨c, ?_⟩
      simpa [scanShardPages] using h.symm
    | ok es =>
      exact ih e (by simpa [scanShardPages] using h)

/-- A range-scan error comes from one of the scanned shards and is
that shard's `shardScanFailure`. -/
theorem scanShards_err (store : Int → ShardPages) :
    ∀ (shards : List Int) (e : PrintableErr),
      (scanShards store shards).2 = some e →
      ∃ s, s ∈ shards ∧ ∃ cause, e = shardScanFailure s cause := by
  intro shards
  induction shards with
  | nil => intro e h; cases h
  | cons s rest ih =>
    intro e h
    simp only [scanShards] at h
    cases h2 : (scanShardPages s (store s)).2 with
    | some e2 =>
      rw [h2] at h
      simp only [Option.some.injEq] at h
      subst h
      exact ⟨s, List.mem_cons_self _ _, scanShardPages_err s (store s) e2 h2⟩
    | none =>
      rw [h2] at h
      simp only at h
      obtain ⟨s2, hs2, hc⟩ := ih e h
      exact ⟨s2, List.mem_cons_of_mem _ hs2, hc⟩

/-- Membership in the walked shard range is exactly the inclusive
interval. -/
theorem shardRange_mem (lo hi s : Int) : s ∈ shardRange lo hi ↔ lo ≤ s ∧ s ≤ hi := by
  unfold shardRange
  simp only [List.mem_map, List.mem_range]
  constructor
  · rintro ⟨i, hi2, rfl⟩
    omega
  · rintro ⟨h1, h2⟩
    refine ⟨(s - lo).toNat, ?_, ?_⟩
    · omega
    · omega

/-- The walked shard range is strictly ascending. -/
theorem shardRange_sorted (lo hi : Int) : (shardRange lo hi).Pairwise (· < ·) := by
  unfold shardRange
  rw [List.pairwise_map]
  have h := List.pairwise_lt_range (hi + 1 - lo).toNat
  exact h.imp (fun hlt => by omega)

/-- C6: the shard-range scan walks exactly the inclusive interval from
the lower to the upper bound, in strictly ascending order; on an
error-free store the run succeeds and its trace is the concatenation,
shard by shard in that order, of each shard's page-ordered operations;
every written line is immediately followed by an fsync before the scan
advances; and a run that fails reports the `shardScanFailure` of one
of the walked shards, whose message contains that shard's id. -/
theorem adminDBScanUnsupportedWorkflow_order_sync_errors :
    (∀ lo hi : Int, (shardRange lo hi).Pairwise (· < ·) ∧
        ∀ s : Int, s ∈ shardRange lo hi ↔ lo ≤ s ∧ s ≤ hi) ∧
    (∀ (lo hi : Int) (store : Int → ShardPages),
        (∀ s : Int, ∀ p ∈ store s, ∃ es, p = Except.ok es) →
        adminDBScanUnsupportedWorkflow lo hi store =
          (((shardRange lo hi).map (fun s => shardOps (store s))).flatten, none)) ∧
    (∀ (lo hi : Int) (store : Int → ShardPages),
        wellSynced (adminDBScanUnsupportedWorkflow lo hi store).1 = true) ∧
    (∀ (lo hi : Int) (store : Int → ShardPages) (e : PrintableErr),
        (adminDBScanUnsupportedWorkflow lo hi store).2 = some e →
        ∃ s, s ∈ shardRange lo hi ∧ (∃ cause, e = shardScanFailure s cause) ∧
          ∃ a b : String, e.msg = a ++ toString s ++ b) := by
  refine ⟨fun lo hi => ⟨shardRange_sorted lo hi, shardRange_mem lo hi⟩, ?_, ?_, ?_⟩
  · intro lo hi store hstore
    unfold adminDBScanUnsupportedWorkflow
    induction shardRange lo hi with
    | nil => rfl
    | cons s rest ih =>
      have hs := scanShardPages_ok s (store s) (hstore s)
      simp [scanShards, hs, ih]
  · intro lo hi store
    exact wellSynced_scanShards store (shardRange lo hi)
  · intro lo hi store e h
    obtain ⟨s, hs, cause, hc⟩ := scanShards_err store (shardRange lo hi) e h
    refine ⟨s, hs, ⟨cause, hc⟩, "Failed to scan shard ID: ",
      " for unsupported workflow. Please retry.", ?_⟩
    rw [hc]
    rfl

/-- A three-shard demonstration store: shard 1 holds the matching
execution, the other shards hold an empty page. -/
def demoStore : Int → ShardPages :=
  fun s => [Except.ok (if s = 1 then [demoOpenNoHistory] else [])]

/-- C6 (witness): over shards [0, 2] of the demonstration store the
run succeeds and the trace is exactly the matching execution's
remediation line followed by its fsync. -/
theorem adminDBScanUnsupportedWorkflow_order_sync_errors_witness :
    adminDBScanUnsupportedWorkflow 0 2 demoStore =
      ([FileOp.write (remediationLine ⟨"dom", "wid", "rid", 0⟩), FileOp.sync], none) := by
  have h := adminDBScanUnsupportedWorkflow_order_sync_errors.2.1 0 2 demoStore
    (by
      intro s p hp
      simp only [demoStore, List.mem_singleton] at hp
      exact ⟨_, hp⟩)
  rw [h]
  rfl

/-! ### C7: the pagination engine yields every item exactly once -/

/-- On an error-free page list, refill either certifies clean
exhaustion (no item pending) or hands out the first pending item, the
page remainder, and the error-free rest. -/
theorem refillPages_pure {α : Type} :
    ∀ rest : List (Except String (List α)), (∀ p ∈ rest, ∃ l, p = Except.ok l) →
      (refillPages rest = Except.ok none ∧ (rest.map pageItems).flatten = []) ∨
      (∃ x xs rest2, refillPages rest = Except.ok (some (x, xs, rest2)) ∧
        (rest.map pageItems).flatten = x :: (xs ++ (rest2.map pageItems).flatten) ∧
        ∀ p ∈ rest2, ∃ l, p = Except.ok l) := by
  intro rest
  induction rest with
  | nil => intro _; exact Or.inl ⟨rfl, rfl⟩
  | cons p rest ih =>
    intro h
    obtain ⟨l, hp⟩ := h p (List.mem_cons_self _ _)
    subst hp
    have hrest : ∀ q ∈ rest, ∃ l, q = Except.ok l :=
      fun q hq => h q (List.mem_cons_of_mem _ hq)
    cases l with
    | nil =>
      rcases ih hrest with ⟨h1, h2⟩ | ⟨x, xs, rest2, h1, h2, h3⟩
      · exact Or.inl ⟨h1, by simpa [pageItems] using h2⟩
      · exact Or.inr ⟨x, xs, rest2, h1, by simpa [pageItems] using h2, h3⟩
    | cons x xs =>
      exact Or.inr ⟨x, xs, rest, rfl, by simp [pageItems], hrest⟩

/-- On an error-free source, one `next` call either reports exhaustion
(exactly when nothing is pending, with `hasNext` false) or yields the
first pending item and a state pending the rest (with `hasNext`
true). -/
theorem PagingIter.next_pure {α : Type} (it : PagingIter α) (h : it.pureSource) :
    (it.pending = [] ∧ it.next = (NextOutcome.exhausted, ⟨[], it.rest⟩) ∧
      it.hasNext = false) ∨
    (∃ x it2, it.next = (NextOutcome.item x, it2) ∧
      it.pending = x :: PagingIter.pending it2 ∧ PagingIter.pureSource it2 ∧
      it.hasNext = true) := by
  rcases it with ⟨buffer, rest⟩
  cases buffer with
  | cons x xs =>
    refine Or.inr ⟨x, ⟨xs, rest⟩, rfl, rfl, h, ?_⟩
    simp [PagingIter.hasNext]
  | nil =>
    rcases refillPages_pure rest h with ⟨h1, h2⟩ | ⟨x, xs, rest2, h1, h2, h3⟩
    · refine Or.inl ⟨?_, ?_, ?_⟩
      · simpa [PagingIter.pending] using h2
      · simp [PagingIter.next, h1]
      · simp [PagingIter.hasNext, h1]
    · refine Or.inr ⟨x, ⟨xs, rest2⟩, ?_, ?_, h3, ?_⟩
      · simp [PagingIter.next, h1]
      · simpa [PagingIter.pending] using h2
      · simp [PagingIter.hasNext, h1]

/-- With enough fuel, the drive loop over an error-free source
collects exactly the pending items. -/
theorem drainIter_pure {α : Type} :
    ∀ (fuel : Nat) (it : PagingIter α), it.pureSource →
      it.pending.length ≤ fuel → drainIter fuel it = it.pending := by
  intro fuel
  induction fuel with
  | zero =>
    intro it _ hlen
    have : it.pending = [] := List.length_eq_zero.mp (Nat.le_zero.mp hlen)
    rw [this]
    rfl
  | succ n ih =>
    intro it hpure hlen
    rcases PagingIter.next_pure it hpure with ⟨h1, _, h3⟩ | ⟨x, it2, h1, h2, h3, h4⟩
    · simp [drainIter, h3, h1]
    · rw [h2]
      simp only [drainIter, h4, if_true, h1]
      have hlen2 : (PagingIter.pending it2).length ≤ n := by
        rw [h2] at hlen
        simpa using hlen
      rw [ih it2 h3 hlen2]

/-- C7: over a paged source with N items split across error-free
pages, the engine yields exactly the N items in order (the trailing
empty token — the end of the page list — terminates the sequence); on
any error-free state, `hasNext` is false exactly when every pending
item has been consumed, and a `next` after exhaustion reports the
defined no-more-items outcome. -/
theorem pagingIterator_yields_exactly_all :
    (∀ (α : Type) (pages : List (List α)) (fuel : Nat),
        pages.flatten.length ≤ fuel →
        drainIter fuel (PagingIter.fromPages (pages.map Except.ok)) = pages.flatten) ∧
    (∀ (α : Type) (it : PagingIter α), it.pureSource →
        (it.hasNext = false ↔ it.pending = [])) ∧
    (∀ (α : Type) (it : PagingIter α), it.pureSource → it.pending = [] →
        (it.next).1 = NextOutcome.exhausted) := by
  refine ⟨?_, ?_, ?_⟩
  · intro α pages fuel hlen
    have hpure : (PagingIter.fromPages (pages.map Except.ok) : PagingIter α).pureSource := by
      intro p hp
      simp only [PagingIter.fromPages, List.mem_map] at hp
      obtain ⟨l, _, hl⟩ := hp
      exact ⟨l, hl.symm⟩
    have hpend : (PagingIter.fromPages (pages.map Except.ok) : PagingIter α).pending =
        pages.flatten := by
      have hcomp : pageItems ∘ (Except.ok : List α → Except String (List α)) = id := by
        funext l
        rfl
      simp [PagingIter.fromPages, PagingIter.pending, List.map_map, hcomp]
    rw [drainIter_pure fuel _ hpure (by rw [hpend]; exact hlen), hpend]
  · intro α it hpure
    rcases PagingIter.next_pure it hpure with ⟨h1, _, h3⟩ | ⟨x, it2, _, h2, _, h4⟩
    · constructor
      · intro _; exact h1
      · intro _; exact h3
    · constructor
      · intro hfalse
        rw [h4] at hfalse
        cases hfalse
      · intro hpend
        rw [hpend] at h2
        cases h2
  · intro α it hpure hpend
    rcases PagingIter.next_pure it hpure with ⟨_, h2, _⟩ | ⟨x, it2, _, h2, _, _⟩
    · rw [h2]
    · rw [hpend] at h2
      cases h2

/-- C7 (witness): a source of 3 items split across pages of size 2
yields exactly its 3 items. -/
theorem pagingIterator_yields_exactly_all_witness :
    drainIter 3 (PagingIter.fromPages ([[1, 2], [3]].map Except.ok)) = [1, 2, 3] :=
  (pagingIterator_yields_exactly_all.1 Nat [[1, 2], [3]] 3 (by decide)).trans (by rfl)

/-! ### C8: retry semantics of the wrapped accessor -/

/-- After `k` leading transient failures with `k` strictly below the
attempts still allowed, the loop reaches the succeeding attempt:
shifted form used for induction. -/
theorem retryLoop_succeeds {α : Type} (call : Nat → CallOutcome α) (a : α) :
    ∀ (k attempt remaining : Nat), k < remaining →
      (∀ i, i < k → ∃ m, call (attempt + i) = CallOutcome.transient m) →
      call (attempt + k) = CallOutcome.ok a →
      retryLoop call attempt remaining = (Except.ok a, attempt + k + 1) := by
  intro k
  induction k with
  | zero =>
    intro attempt remaining hlt _ hok
    cases remaining with
    | zero => omega
    | succ r =>
      simp only [retryLoop]
      rw [show attempt + 0 = attempt from rfl] at hok
      rw [hok]
  | succ n ih =>
    intro attempt remaining hlt htr hok
    cases remaining with
    | zero => omega
    | succ r =>
      obtain ⟨m, hm⟩ := htr 0 (Nat.succ_pos n)
      rw [show attempt + 0 = attempt from rfl] at hm
      simp only [retryLoop, hm]
      have hr : n < r := by omega
      have hr0 : ¬ r = 0 := by omega
      rw [if_neg hr0]
      have htr2 : ∀ i, i < n → ∃ m2, call (attempt + 1 + i) = CallOutcome.transient m2 := by
        intro i hi
        have := htr (i + 1) (by omega)
        simpa [Nat.add_assoc, Nat.add_comm 1 i] using this
      have hok2 : call (attempt + 1 + n) = CallOutcome.ok a := by
        have h1 : attempt + 1 + n = attempt + (n + 1) := by omega
        rw [h1]
        exact hok
      have hrec := ih (attempt + 1) r hr htr2 hok2
      rw [hrec]
      have heq : attempt + 1 + n + 1 = attempt + (n + 1) + 1 := by omega
      rw [heq]

/-- When every allowed attempt fails transiently, the loop exhausts
its attempts and returns the error of the final attempt verbatim:
shifted form used for induction. -/
theorem retryLoop_exhausts {α : Type} (call : Nat → CallOutcome α) (errf : Nat → String) :
    ∀ (remaining attempt : Nat), 0 < remaining →
      (∀ i, i < remaining → call (attempt + i) = CallOutcome.transient (errf (attempt + i))) →
      retryLoop call attempt remaining =
        (Except.error (errf (attempt + remaining - 1)), attempt + remaining) := by
  intro remaining
  induction remaining with
  | zero => intro attempt h0 _; omega
  | succ r ih =>
    intro attempt _ h
    have hm : call attempt = CallOutcome.transient (errf attempt) := by
      simpa using h 0 (Nat.succ_pos r)
    simp only [retryLoop, hm]
    cases r with
    | zero =>
      rw [if_pos rfl]
      have h1 : attempt + 1 - 1 = attempt := by omega
      rw [h1]
    | succ r2 =>
      rw [if_neg (by omega)]
      have hshift : ∀ i, i < r2 + 1 →
          call (attempt + 1 + i) = CallOutcome.transient (errf (attempt + 1 + i)) := by
        intro i hi
        have := h (i + 1) (by omega)
        simpa [Nat.add_assoc, Nat.add_comm 1 i] using this
      have hrec := ih (attempt + 1) (Nat.succ_pos r2) hshift
      rw [hrec]
      have h1 : attempt + 1 + (r2 + 1) - 1 = attempt + (r2 + 1 + 1) - 1 := by omega
      have h2 : attempt + 1 + (r2 + 1) = attempt + (r2 + 1 + 1) := by omega
      rw [h1, h2]

/-- C8: the retry wrapper succeeds after exactly K retries (K + 1
attempts) when the underlying call fails transiently K times with K
below the maximum attempt count and then succeeds; when every allowed
attempt fails transiently it fails with the final attempt's error
unchanged, after exactly the maximum number of attempts; and a
non-retryable error (such as not-found) on the first attempt is
returned at once after a single attempt, never retried. -/
theorem retryCall_retry_semantics :
    (∀ (α : Type) (call : Nat → CallOutcome α) (a : α) (k maxAttempts : Nat),
        k < maxAttempts →
        (∀ i, i < k → ∃ m, call i = CallOutcome.transient m) →
        call k = CallOutcome.ok a →
        retryCall maxAttempts call = (Except.ok a, k + 1)) ∧
    (∀ (α : Type) (call : Nat → CallOutcome α) (errf : Nat → String) (maxAttempts : Nat),
        0 < maxAttempts →
        (∀ i, i < maxAttempts → call i = CallOutcome.transient (errf i)) →
        retryCall maxAttempts call = (Except.error (errf (maxAttempts - 1)), maxAttempts)) ∧
    (∀ (α : Type) (call : Nat → CallOutcome α) (e : String) (maxAttempts : Nat),
        call 0 = CallOutcome.nonRetryable e → 0 < maxAttempts →
        retryCall maxAttempts call = (Except.error e, 1)) := by
  refine ⟨?_, ?_, ?_⟩
  · intro α call a k maxAttempts hk htr hok
    have h := retryLoop_succeeds call a k 0 maxAttempts hk
      (by intro i hi; simpa using htr i hi) (by simpa using hok)
    simpa [retryCall] using h
  · intro α call errf maxAttempts hpos h
    have hr := retryLoop_exhausts call errf maxAttempts 0 hpos
      (by intro i hi; simpa using h i hi)
    simpa [retryCall] using hr
  · intro α call e maxAttempts h hpos
    cases maxAttempts with
    | zero => omega
    | succ m => simp [retryCall, retryLoop, h]

/-- A demonstration store call that fails transiently on the first two
attempts and then succeeds. -/
def demoFlakyCall : Nat → CallOutcome Nat :=
  fun i => if i < 2 then CallOutcome.transient (toString i) else CallOutcome.ok 42

/-- C8 (witness): with 5 allowed attempts, a call failing transiently
twice succeeds on the third attempt: 2 retries, 3 attempts. -/
theorem retryCall_retry_semantics_witness :
    retryCall 5 demoFlakyCall = (Except.ok 42, 3) :=
  retryCall_retry_semantics.1 Nat demoFlakyCall 42 2 5 (by omega)
    (fun i hi => ⟨toString i, by simp [demoFlakyCall, hi]⟩)
    (by simp [demoFlakyCall])
